import Mathlib

/-!
Verification of the framed-stream decode-and-assemble pipeline of
`opus_converter/server.py` (class `OpusToWavConverter` and its
`convert_to_wav` method).

Bytes are modelled as natural numbers (values below 256 where relevant);
byte strings as `List Nat`.  The external opus decoder
(`opuslib.Decoder.decode`) is modelled as an abstract state-passing
function: given the decoder state, the frame bytes and the requested
frame size it returns either `some pcm` (the decoded PCM byte string)
or `none` (the decode call raised), together with the updated decoder
state.  The `wave` module's serialized output is modelled byte-exactly
(RIFF header with patched sizes followed by the raw data written).
-/

/-- Converter configuration, from `OpusToWavConverter.__init__`
(`server.py` lines 19-22): the stored `sample_rate` and `channels`. -/
structure OpusToWavConverter where
  sample_rate : Nat
  channels : Nat

/-- The default construction `OpusToWavConverter()` used at module level:
`sample_rate=16000, channels=1`. -/
def defaultConverter : OpusToWavConverter :=
  { sample_rate := 16000, channels := 1 }

/-- Model of `opuslib.Decoder.decode`: state, frame bytes, requested
frame size in samples; result is `some pcm` on success or `none` when the
call raises, plus the post-call decoder state. -/
def DecodeFun (σ : Type) : Type :=
  σ → List Nat → Nat → Option (List Nat) × σ

/-- `OpusToWavConverter._read_frame_length` (`server.py` lines 25-29):
`data[offset] | (data[offset + 1] << 8)`. -/
def read_frame_length (data : List Nat) (offset : Nat) : Nat :=
  data.getD offset 0 ||| (data.getD (offset + 1) 0 <<< 8)

/-- Python `int.to_bytes(2, "little")`-style rendering used by
`struct.pack("<H", ·)`; also the shape of the 2-byte fields the `wave`
module writes. -/
def u16le (v : Nat) : List Nat :=
  [v % 256, v / 256 % 256]

/-- 4-byte little-endian rendering, as written by `struct.pack("<L", ·)`
inside the `wave` module. -/
def u32le (v : Nat) : List Nat :=
  [v % 256, v / 256 % 256, v / 65536 % 256, v / 16777216 % 256]

/-- The header the `wave` module leaves in the buffer after `close()`
patched the sizes: `RIFF`, chunk size `36 + datalen`, `WAVE`, `fmt `,
subchunk size 16, format tag 1 (PCM), channel count, sample rate,
byte rate `channels * rate * sampwidth`, block align
`channels * sampwidth`, bits per sample `sampwidth * 8`, `data`,
and the data-chunk length `datalen`. -/
def wavHeader (channels rate sampwidth datalen : Nat) : List Nat :=
  [82, 73, 70, 70] ++ u32le (36 + datalen) ++
  [87, 65, 86, 69] ++ [102, 109, 116, 32] ++ u32le 16 ++
  u16le 1 ++ u16le channels ++ u32le rate ++
  u32le (channels * rate * sampwidth) ++ u16le (channels * sampwidth) ++
  u16le (sampwidth * 8) ++ [100, 97, 116, 97] ++ u32le datalen

/-- Interpretation of a 16-bit unsigned value as the signed value that
`struct.unpack` format `h` yields. -/
def toSigned16 (v : Nat) : Int :=
  if v < 32768 then (v : Int) else (v : Int) - 65536

/-- `struct.unpack("<%dh" % (len(pcm) // 2), pcm)` (`server.py` line 62):
reads consecutive 2-byte little-endian signed integers; raises (`none`)
when a lone trailing byte is left, which is exactly the case
`len(pcm) != 2 * (len(pcm) // 2)` where `struct` reports a buffer-size
mismatch. -/
def unpackInt16LE : List Nat → Option (List Int)
  | [] => some []
  | [_] => none
  | b0 :: b1 :: rest => (unpackInt16LE rest).map fun xs => toSigned16 (b0 + 256 * b1) :: xs

/-- `struct.pack("<%dh" % n, *samples)` (`server.py` line 62): renders each
signed 16-bit sample as two little-endian bytes. -/
def packInt16LE : List Int → List Nat
  | [] => []
  | x :: xs => ((x % 65536).toNat % 256) :: ((x % 65536).toNat / 256) :: packInt16LE xs

/-- The repacking step `struct.pack(... , *struct.unpack(..., pcm))` of
`server.py` line 62; `none` means the line raised (caught by the frame
loop's `except`). -/
def repack (pcm : List Nat) : Option (List Nat) :=
  (unpackInt16LE pcm).map packInt16LE

/-- The frame-scanning (demultiplexing) part of the `while` loop in
`convert_to_wav` (`server.py` lines 44-57): at each offset, stop unless
two header bytes remain, read the little-endian length, stop unless the
declared payload fits, otherwise take the payload slice
`opus_data[offset+2 : offset+2+frame_length]` and continue after it. -/
def demuxLoop (data : List Nat) (offset : Nat) : List (List Nat) :=
  if _h1 : offset < data.length then
    if _h2 : data.length < offset + 2 then []
    else if _h3 : data.length < offset + 2 + read_frame_length data offset then []
    else
      ((data.drop (offset + 2)).take (read_frame_length data offset)) ::
        demuxLoop data (offset + 2 + read_frame_length data offset)
  else []
termination_by data.length - offset
decreasing_by omega

/-- The full `while` loop of `convert_to_wav` (`server.py` lines 44-68):
demultiplex as in `demuxLoop`; for each frame call
`decoder.decode(bytes(frame), 320)` and then the `struct` repacking; on
success append the repacked block (`wav_file.writeframes`), on any
exception skip the frame and continue.  Returns the list of written
blocks and the final decoder state. -/
def convertLoop {σ : Type} (dec : DecodeFun σ) (data : List Nat) (offset : Nat)
    (s : σ) : List (List Nat) × σ :=
  if _h1 : offset < data.length then
    if _h2 : data.length < offset + 2 then ([], s)
    else if _h3 : data.length < offset + 2 + read_frame_length data offset then ([], s)
    else
      match (dec s ((data.drop (offset + 2)).take (read_frame_length data offset)) 320).1.bind
          repack with
      | some wav_data =>
        (wav_data ::
          (convertLoop dec data (offset + 2 + read_frame_length data offset)
            (dec s ((data.drop (offset + 2)).take (read_frame_length data offset)) 320).2).1,
          (convertLoop dec data (offset + 2 + read_frame_length data offset)
            (dec s ((data.drop (offset + 2)).take (read_frame_length data offset)) 320).2).2)
      | none =>
        convertLoop dec data (offset + 2 + read_frame_length data offset)
          (dec s ((data.drop (offset + 2)).take (read_frame_length data offset)) 320).2
  else ([], s)
termination_by data.length - offset
decreasing_by all_goals omega

/-- `OpusToWavConverter.convert_to_wav` (`server.py` lines 31-72): run the
frame loop, then return the bytes the `wave` module left in `wav_buffer`
(finalized header followed by all written blocks), together with the
decoder state after the call (the decoder lives on `self` and persists
across calls). -/
def convert_to_wav {σ : Type} (c : OpusToWavConverter) (dec : DecodeFun σ)
    (s : σ) (opus_data : List Nat) : List Nat × σ :=
  let r := convertLoop dec opus_data 0 s
  (wavHeader c.channels c.sample_rate 2 r.1.flatten.length ++ r.1.flatten, r.2)

/-- The sequence of per-frame decode outcomes along a run of the loop:
the result of `decoder.decode(frame, 320)` for each frame in order,
threading the decoder state. -/
def decodeResults {σ : Type} (dec : DecodeFun σ) (s : σ) :
    List (List Nat) → List (Option (List Nat))
  | [] => []
  | f :: rest => (dec s f 320).1 :: decodeResults dec (dec s f 320).2 rest

/-- The decoder state after the loop has decoded the given frames in
order. -/
def runState {σ : Type} (dec : DecodeFun σ) (s : σ) : List (List Nat) → σ
  | [] => s
  | f :: rest => runState dec (dec s f 320).2 rest

/-- Read a 2-byte little-endian unsigned field at byte position `i` of a
serialized buffer. -/
def readU16LE (bs : List Nat) (i : Nat) : Nat :=
  bs.getD i 0 + 256 * bs.getD (i + 1) 0

/-- Read a 4-byte little-endian unsigned field at byte position `i` of a
serialized buffer. -/
def readU32LE (bs : List Nat) (i : Nat) : Nat :=
  bs.getD i 0 + 256 * bs.getD (i + 1) 0 + 65536 * bs.getD (i + 2) 0 +
    16777216 * bs.getD (i + 3) 0

/-- A well-formed frame of the inbound binary format: 2-byte
little-endian length header followed by exactly that many payload
bytes. -/
def encodeFrame (p : List Nat) : List Nat :=
  u16le p.length ++ p

/-- A valid concatenation of well-formed frames. -/
def encodeFrames (ps : List (List Nat)) : List Nat :=
  (ps.map encodeFrame).flatten

/-- One iteration of the frame-scanning loop viewed as an offset
transformer: `some offset'` when the iteration neither breaks nor
exits, `none` when the loop stops at `offset`. -/
def loopStep (data : List Nat) (offset : Nat) : Option Nat :=
  if offset < data.length then
    if data.length < offset + 2 then none
    else
      let frame_length := read_frame_length data offset
      if data.length < offset + 2 + frame_length then none
      else some (offset + 2 + frame_length)
  else none

/-- An instrumented decoder model that records the frame size requested
by each decode call in its state and always reports a decode failure. -/
def spyDec : DecodeFun (List Nat) :=
  fun sizes _ n => (none, sizes ++ [n])

/-- A stub decoder that decodes every payload to the fixed one-sample
block `[7, 0]`. -/
def decConst : DecodeFun Unit :=
  fun _ _ _ => (some [7, 0], ())

/-- A stub decoder that fails on the payload `[9]` and decodes every
other payload to the block `[7, 0]`. -/
def decSel : DecodeFun Unit :=
  fun _ f _ => (if f = [9] then none else some [7, 0], ())

/-- A stub decoder that fails on every payload. -/
def decNone : DecodeFun Unit :=
  fun _ _ _ => (none, ())

/-- A stub decoder that emits an odd-length (hence malformed) PCM byte
string for every payload. -/
def decOdd : DecodeFun Unit :=
  fun _ _ _ => (some [1, 2, 3], ())

/-- A value below `2 ^ i` or-ed with a value shifted left by `i` is their
sum: the two operands occupy disjoint bit ranges. -/
theorem lor_two_pow_split : ∀ (i a b : Nat), a < 2 ^ i → a ||| (b <<< i) = a + 2 ^ i * b := by
  intro i
  induction i with
  | zero =>
    intro a b ha
    have h0 : a = 0 := by simpa using ha
    subst h0
    simp [Nat.shiftLeft_zero]
  | succ i ih =>
    intro a b ha
    conv_lhs => rw [← Nat.bit_decomp a]
    have hb : b <<< (i + 1) = Nat.bit false (b <<< i) := by
      rw [Nat.bit_val, Nat.shiftLeft_eq, Nat.shiftLeft_eq, pow_succ]
      simp [Bool.toNat_false]
      ring
    rw [hb, Nat.lor_bit]
    have hdiv : a.div2 < 2 ^ i := by
      rw [Nat.div2_val]
      have h2 : (2 : Nat) ^ (i + 1) = 2 ^ i * 2 := pow_succ 2 i
      omega
    rw [Nat.bit_val, ih a.div2 b hdiv]
    have h2 : a.bodd.toNat + 2 * a.div2 = a := Nat.bodd_add_div2 a
    have h3 : (2 : Nat) ^ (i + 1) * b = 2 * (2 ^ i * b) := by ring
    rw [h3]
    simp only [Bool.or_false]
    omega

/-- When the low header byte is a genuine byte value, the `|`/`<<`
combination in `_read_frame_length` computes the little-endian value of
the two header bytes. -/
theorem read_frame_length_eq (data : List Nat) (offset : Nat)
    (h : data.getD offset 0 < 256) :
    read_frame_length data offset = data.getD offset 0 + 256 * data.getD (offset + 1) 0 := by
  unfold read_frame_length
  have h8 : (256 : Nat) = 2 ^ 8 := by norm_num
  rw [lor_two_pow_split 8 _ _ (by omega)]
  omega

/-- The frame scan only looks at the buffer from the scan offset on:
shifting both the buffer and the offset by a common prefix does not
change the frames found. -/
theorem demuxLoop_shift (pre rest : List Nat) (k : Nat) :
    demuxLoop (pre ++ rest) (pre.length + k) = demuxLoop rest k := by
  have main : ∀ (n k : Nat), rest.length - k ≤ n →
      demuxLoop (pre ++ rest) (pre.length + k) = demuxLoop rest k := by
    intro n
    induction n with
    | zero =>
      intro k hk
      have h1 : ¬ (pre.length + k < (pre ++ rest).length) := by
        simp only [List.length_append]; omega
      have h2 : ¬ (k < rest.length) := by omega
      unfold demuxLoop
      rw [dif_neg h1, dif_neg h2]
    | succ n ih =>
      intro k hk
      by_cases hk1 : k < rest.length
      · have hlen : (pre ++ rest).length = pre.length + rest.length := by simp
        have hfl : read_frame_length (pre ++ rest) (pre.length + k) =
            read_frame_length rest k := by
          unfold read_frame_length
          rw [List.getD_append_right pre rest 0 (pre.length + k) (by omega)]
          rw [List.getD_append_right pre rest 0 (pre.length + k + 1) (by omega)]
          have e1 : pre.length + k - pre.length = k := by omega
          have e2 : pre.length + k + 1 - pre.length = k + 1 := by omega
          rw [e1, e2]
        by_cases hk2 : rest.length < k + 2
        · unfold demuxLoop
          rw [dif_pos (by omega), dif_pos hk1, dif_pos (by omega), dif_pos hk2]
        · by_cases hk3 : rest.length < k + 2 + read_frame_length rest k
          · unfold demuxLoop
            rw [dif_pos (by omega), dif_pos hk1, dif_neg (by omega), dif_neg hk2,
              dif_pos (by rw [hfl]; omega), dif_pos hk3]
          · have hdrop : (pre ++ rest).drop (pre.length + k + 2) = rest.drop (k + 2) := by
              have e3 : pre.length + k + 2 = pre.length + (k + 2) := by omega
              rw [e3, List.drop_append]
            have hrec : demuxLoop (pre ++ rest) (pre.length + (k + 2 + read_frame_length rest k)) =
                demuxLoop rest (k + 2 + read_frame_length rest k) :=
              ih (k + 2 + read_frame_length rest k) (by omega)
            unfold demuxLoop
            rw [dif_pos (by omega), dif_pos hk1, dif_neg (by omega), dif_neg hk2,
              dif_neg (by rw [hfl]; omega), dif_neg hk3]
            rw [hfl, hdrop]
            have e4 : pre.length + k + 2 + read_frame_length rest k =
                pre.length + (k + 2 + read_frame_length rest k) := by omega
            rw [e4, hrec]
      · have h1 : ¬ (pre.length + k < (pre ++ rest).length) := by
          simp only [List.length_append]; omega
        unfold demuxLoop
        rw [dif_neg h1, dif_neg hk1]
  exact main rest.length k (by omega)

/-- The scan yields nothing when the buffer from the offset on is
exhausted. -/
theorem demuxLoop_end (data : List Nat) (offset : Nat) (h : data.length ≤ offset) :
    demuxLoop data offset = [] := by
  unfold demuxLoop
  rw [dif_neg (by omega)]

/-- `struct` 16-bit signed round trip: a value below 2^16 survives
signed interpretation followed by re-encoding. -/
theorem toSigned16_roundtrip (v : Nat) (h : v < 65536) :
    ((toSigned16 v) % 65536).toNat = v := by
  unfold toSigned16
  split_ifs with h1
  · omega
  · omega

/-- The repacking line is the identity on even-length byte strings: the
`unpack`/`pack` pair reproduces the input bytes. -/
theorem repack_id : ∀ (pcm : List Nat), pcm.length % 2 = 0 → (∀ b ∈ pcm, b < 256) →
    repack pcm = some pcm := by
  intro pcm
  induction pcm using unpackInt16LE.induct with
  | case1 =>
    intro _ _
    rfl
  | case2 x =>
    intro h _
    simp at h
  | case3 b0 b1 rest ih =>
    intro hlen hbytes
    have hb0 : b0 < 256 := hbytes b0 (by simp)
    have hb1 : b1 < 256 := hbytes b1 (by simp)
    have hrest : repack rest = some rest := by
      refine ih ?_ ?_
      · simp at hlen ⊢
        omega
      · intro b hb
        exact hbytes b (by simp [hb])
    have hxs : ∃ xs, unpackInt16LE rest = some xs ∧ packInt16LE xs = rest := by
      unfold repack at hrest
      cases hu : unpackInt16LE rest with
      | none => rw [hu] at hrest; simp at hrest
      | some xs =>
        rw [hu] at hrest
        simp at hrest
        exact ⟨xs, rfl, hrest⟩
    obtain ⟨xs, hu, hp⟩ := hxs
    unfold repack unpackInt16LE
    rw [hu]
    show some (packInt16LE (toSigned16 (b0 + 256 * b1) :: xs)) = some (b0 :: b1 :: rest)
    show some ((((toSigned16 (b0 + 256 * b1)) % 65536).toNat % 256) ::
      (((toSigned16 (b0 + 256 * b1)) % 65536).toNat / 256) :: packInt16LE xs) =
      some (b0 :: b1 :: rest)
    have hv : ((toSigned16 (b0 + 256 * b1)) % 65536).toNat = b0 + 256 * b1 :=
      toSigned16_roundtrip _ (by omega)
    rw [hv, hp]
    have e0 : (b0 + 256 * b1) % 256 = b0 := by omega
    have e1 : (b0 + 256 * b1) / 256 = b1 := by omega
    rw [e0, e1]

/-- On an odd-length byte string the `struct.unpack` call raises, so the
repacking yields no block. -/
theorem repack_odd : ∀ (pcm : List Nat), pcm.length % 2 = 1 → repack pcm = none := by
  intro pcm
  induction pcm using unpackInt16LE.induct with
  | case1 =>
    intro h
    simp at h
  | case2 x =>
    intro _
    rfl
  | case3 b0 b1 rest ih =>
    intro hlen
    have hrest : repack rest = none := by
      refine ih ?_
      simp at hlen ⊢
      omega
    have hu : unpackInt16LE rest = none := by
      unfold repack at hrest
      cases hu : unpackInt16LE rest with
      | none => rfl
      | some xs => rw [hu] at hrest; simp at hrest
    unfold repack unpackInt16LE
    rw [hu]
    rfl

/-- `struct.pack` emits two bytes per sample. -/
theorem packInt16LE_length : ∀ (xs : List Int), (packInt16LE xs).length = 2 * xs.length := by
  intro xs
  induction xs with
  | nil => rfl
  | cons x xs ih =>
    unfold packInt16LE
    simp [ih]
    omega

/-- Any block the repacking step produces has even length. -/
theorem repack_even (pcm w : List Nat) (h : repack pcm = some w) : w.length % 2 = 0 := by
  unfold repack at h
  cases hu : unpackInt16LE pcm with
  | none => rw [hu] at h; simp at h
  | some xs =>
    rw [hu] at h
    simp at h
    rw [← h, packInt16LE_length]
    omega

/-- A well-formed frame list serializes to the frame bytes followed by
the rest. -/
theorem encodeFrames_cons (p : List Nat) (rest : List (List Nat)) :
    encodeFrames (p :: rest) = encodeFrame p ++ encodeFrames rest := by
  simp [encodeFrames]

/-- Scanning a buffer that starts with one well-formed frame yields that
frame's payload and continues after it. -/
theorem demuxLoop_wellformed_head (p E : List Nat) (hp : p.length < 65536) :
    demuxLoop (encodeFrame p ++ E) 0 = p :: demuxLoop E 0 := by
  have hdata : encodeFrame p ++ E =
      (p.length % 256) :: (p.length / 256 % 256) :: (p ++ E) := by
    simp [encodeFrame, u16le]
  have hlen2 : (encodeFrame p ++ E).length = 2 + p.length + E.length := by
    simp [encodeFrame, u16le]
    omega
  have hfl : read_frame_length (encodeFrame p ++ E) 0 = p.length := by
    have g0 : (encodeFrame p ++ E).getD 0 0 = p.length % 256 := by rw [hdata]; exact rfl
    have g1 : (encodeFrame p ++ E).getD (0 + 1) 0 = p.length / 256 % 256 := by
      rw [hdata]; exact rfl
    rw [read_frame_length_eq _ _ (by rw [g0]; omega), g0, g1]
    omega
  have hdrop : (encodeFrame p ++ E).drop (0 + 2) = p ++ E := by
    rw [hdata]; exact rfl
  conv_lhs => rw [demuxLoop]
  rw [hfl]
  rw [dif_pos (by omega), dif_neg (by omega), dif_neg (by omega)]
  rw [hdrop, List.take_left]
  have e4 : 0 + 2 + p.length = (encodeFrame p).length + 0 := by
    simp [encodeFrame, u16le]
    omega
  rw [e4, demuxLoop_shift]

/-- Scanning a valid concatenation of well-formed frames followed by any
trailing bytes yields exactly those payloads and then whatever the
scan of the trailing bytes alone yields. -/
theorem demuxLoop_encode_append (ps : List (List Nat)) (t : List Nat)
    (hlen : ∀ p ∈ ps, p.length < 65536) :
    demuxLoop (encodeFrames ps ++ t) 0 = ps ++ demuxLoop t 0 := by
  induction ps with
  | nil => simp [encodeFrames]
  | cons p rest ih =>
    have hp : p.length < 65536 := hlen p (by simp)
    have hrest : ∀ q ∈ rest, q.length < 65536 := fun q hq => hlen q (by simp [hq])
    rw [encodeFrames_cons, List.append_assoc, demuxLoop_wellformed_head p _ hp, ih hrest]
    rfl

/-- The blocks the loop writes are exactly the decode results of the
demultiplexed frames passed through the repacking step, in order, with
frames whose decode or repack raised contributing nothing. -/
theorem convertLoop_fst {σ : Type} (dec : DecodeFun σ) (data : List Nat)
    (offset : Nat) (s : σ) :
    (convertLoop dec data offset s).1 =
      (decodeResults dec s (demuxLoop data offset)).filterMap (fun r => r.bind repack) := by
  have main : ∀ (n offset : Nat) (s : σ), data.length - offset ≤ n →
      (convertLoop dec data offset s).1 =
      (decodeResults dec s (demuxLoop data offset)).filterMap (fun r => r.bind repack) := by
    intro n
    induction n with
    | zero =>
      intro offset s hn
      rw [demuxLoop_end data offset (by omega)]
      unfold convertLoop
      rw [dif_neg (by omega)]
      rfl
    | succ n ih =>
      intro offset s hn
      by_cases h1 : offset < data.length
      · by_cases h2 : data.length < offset + 2
        · unfold convertLoop demuxLoop
          rw [dif_pos h1, dif_pos h2, dif_pos h1, dif_pos h2]
          rfl
        · by_cases h3 : data.length < offset + 2 + read_frame_length data offset
          · unfold convertLoop demuxLoop
            rw [dif_pos h1, dif_neg h2, dif_pos h3, dif_pos h1, dif_neg h2, dif_pos h3]
            rfl
          · have ihr := fun s2 => ih (offset + 2 + read_frame_length data offset) s2 (by omega)
            unfold convertLoop demuxLoop
            rw [dif_pos h1, dif_neg h2, dif_neg h3, dif_pos h1, dif_neg h2, dif_neg h3]
            simp only [decodeResults, List.filterMap_cons]
            cases hr : (dec s ((data.drop (offset + 2)).take
                (read_frame_length data offset)) 320).1.bind repack with
            | none =>
              exact ihr _
            | some w =>
              exact congrArg (fun l => w :: l) (ihr _)
      · rw [demuxLoop_end data offset (by omega)]
        unfold convertLoop
        rw [dif_neg (by omega)]
        rfl
  exact main (data.length - offset) offset s (by omega)

/-- The decoder state after the loop is the fold of the decode calls
over the demultiplexed frames. -/
theorem convertLoop_snd {σ : Type} (dec : DecodeFun σ) (data : List Nat)
    (offset : Nat) (s : σ) :
    (convertLoop dec data offset s).2 = runState dec s (demuxLoop data offset) := by
  have main : ∀ (n offset : Nat) (s : σ), data.length - offset ≤ n →
      (convertLoop dec data offset s).2 = runState dec s (demuxLoop data offset) := by
    intro n
    induction n with
    | zero =>
      intro offset s hn
      rw [demuxLoop_end data offset (by omega)]
      unfold convertLoop
      rw [dif_neg (by omega)]
      rfl
    | succ n ih =>
      intro offset s hn
      by_cases h1 : offset < data.length
      · by_cases h2 : data.length < offset + 2
        · unfold convertLoop demuxLoop
          rw [dif_pos h1, dif_pos h2, dif_pos h1, dif_pos h2]
          rfl
        · by_cases h3 : data.length < offset + 2 + read_frame_length data offset
          · unfold convertLoop demuxLoop
            rw [dif_pos h1, dif_neg h2, dif_pos h3, dif_pos h1, dif_neg h2, dif_pos h3]
            rfl
          · have ihr := fun s2 => ih (offset + 2 + read_frame_length data offset) s2 (by omega)
            unfold convertLoop demuxLoop
            rw [dif_pos h1, dif_neg h2, dif_neg h3, dif_pos h1, dif_neg h2, dif_neg h3]
            simp only [runState]
            cases hr : (dec s ((data.drop (offset + 2)).take
                (read_frame_length data offset)) 320).1.bind repack with
            | none =>
              exact ihr _
            | some w =>
              exact ihr _
      · rw [demuxLoop_end data offset (by omega)]
        unfold convertLoop
        rw [dif_neg (by omega)]
        rfl
  exact main (data.length - offset) offset s (by omega)

/-- There is one decode call per demultiplexed frame. -/
theorem decodeResults_length {σ : Type} (dec : DecodeFun σ) :
    ∀ (frames : List (List Nat)) (s : σ), (decodeResults dec s frames).length = frames.length := by
  intro frames
  induction frames with
  | nil => intro s; rfl
  | cons f rest ih =>
    intro s
    simp only [decodeResults, List.length_cons, ih]

/-- Concatenating blocks of one common length gives a data section of
predictable length. -/
theorem flatten_length_const (m : Nat) :
    ∀ (l : List (List Nat)), (∀ x ∈ l, x.length = m) → l.flatten.length = l.length * m := by
  intro l
  induction l with
  | nil => intro _; simp
  | cons x rest ih =>
    intro h
    have hx : x.length = m := h x (by simp)
    have hr : ∀ y ∈ rest, y.length = m := fun y hy => h y (by simp [hy])
    simp [ih hr, hx]
    ring

/-- When every successful decode result is a block the repacking maps to
itself, the written blocks are exactly the successfully decoded
blocks. -/
theorem filterMap_repack_all_id :
    ∀ results : List (Option (List Nat)),
      (∀ r ∈ results, ∀ pcm, r = some pcm → repack pcm = some pcm) →
      results.filterMap (fun r => r.bind repack) = results.filterMap id := by
  intro results
  induction results with
  | nil => intro _; rfl
  | cons r rest ih =>
    intro h
    have hr : ∀ pcm, r = some pcm → repack pcm = some pcm := h r (by simp)
    have hrest : ∀ r2 ∈ rest, ∀ pcm, r2 = some pcm → repack pcm = some pcm :=
      fun r2 hm pcm hpcm => h r2 (by simp [hm]) pcm hpcm
    cases r with
    | none => simpa using ih hrest
    | some pcm =>
      have hid := hr pcm rfl
      simp [List.filterMap_cons, hid, Option.bind]
      exact ih hrest

/-- When every decode result is a block the repacking keeps, every frame
contributes exactly one written block. -/
theorem filterMap_repack_all_some_length :
    ∀ results : List (Option (List Nat)),
      (∀ r ∈ results, ∃ pcm, r = some pcm ∧ repack pcm = some pcm) →
      (results.filterMap (fun r => r.bind repack)).length = results.length := by
  intro results
  induction results with
  | nil => intro _; rfl
  | cons r rest ih =>
    intro h
    obtain ⟨pcm, hpcm, hrep⟩ := h r (by simp)
    subst hpcm
    have hrest : ∀ r2 ∈ rest, ∃ pcm, r2 = some pcm ∧ repack pcm = some pcm :=
      fun r2 hm => h r2 (by simp [hm])
    have hg : (some pcm).bind repack = some pcm := hrep
    simp only [List.filterMap_cons, hg, List.length_cons, ih hrest]

/-- With exactly one failing outcome among the decode-and-repack results
and every other outcome a kept block, the number of written blocks is
one less than the number of frames. -/
theorem filterMap_one_none_length :
    ∀ (results : List (Option (List Nat))) (k : Nat),
      k < results.length →
      results[k]? = some none →
      (∀ i, i < results.length → i ≠ k →
        ∃ pcm, results[i]? = some (some pcm) ∧ repack pcm = some pcm) →
      (results.filterMap (fun r => r.bind repack)).length = results.length - 1 := by
  intro results
  induction results with
  | nil =>
    intro k hk _ _
    simp at hk
  | cons r rest ih =>
    intro k hk hknone hother
    cases k with
    | zero =>
      have hr : r = none := by
        rw [List.getElem?_cons_zero] at hknone
        simpa using hknone
      subst hr
      have hall : ∀ r2 ∈ rest, ∃ pcm, r2 = some pcm ∧ repack pcm = some pcm := by
        intro r2 hm
        obtain ⟨i, hi⟩ := List.mem_iff_getElem?.mp hm
        have hilen : i < rest.length := (List.getElem?_eq_some_iff.mp hi).1
        obtain ⟨pcm, hpcm, hrep⟩ := hother (i + 1) (by simp; omega) (by omega)
        rw [List.getElem?_cons_succ, hi] at hpcm
        exact ⟨pcm, by simpa using hpcm, hrep⟩
      have hnone : (none : Option (List Nat)).bind repack = none := rfl
      simp only [List.filterMap_cons, hnone]
      rw [filterMap_repack_all_some_length rest hall]
      simp
    | succ k2 =>
      rw [List.getElem?_cons_succ] at hknone
      have hk2 : k2 < rest.length := by simp at hk; omega
      obtain ⟨pcm, hpcm, hrep⟩ := hother 0 (by simp) (by omega)
      rw [List.getElem?_cons_zero] at hpcm
      have hr : r = some pcm := by simpa using hpcm
      subst hr
      have hother2 : ∀ i, i < rest.length → i ≠ k2 →
          ∃ pcm2, rest[i]? = some (some pcm2) ∧ repack pcm2 = some pcm2 := by
        intro i hi hik
        obtain ⟨pcm2, hpcm2, hrep2⟩ := hother (i + 1) (by simp; omega) (by omega)
        rw [List.getElem?_cons_succ] at hpcm2
        exact ⟨pcm2, hpcm2, hrep2⟩
      have hg : (some pcm).bind repack = some pcm := hrep
      simp only [List.filterMap_cons, hg, List.length_cons]
      rw [ih k2 hk2 hknone hother2]
      omega

/-- The serialized header is 44 bytes long. -/
theorem wavHeader_length (ch r sw dl : Nat) : (wavHeader ch r sw dl).length = 44 := rfl

/-- Byte 0-3 of the output: the `RIFF` chunk tag. -/
theorem wavHeader_riff_tag (ch r sw dl : Nat) (tail : List Nat) :
    (wavHeader ch r sw dl ++ tail).take 4 = [82, 73, 70, 70] := rfl

/-- Bytes 8-15 of the output: the `WAVE` form tag and the `fmt ` chunk
tag. -/
theorem wavHeader_wave_fmt_tags (ch r sw dl : Nat) (tail : List Nat) :
    ((wavHeader ch r sw dl ++ tail).drop 8).take 8 = [87, 65, 86, 69, 102, 109, 116, 32] := rfl

/-- Bytes 36-39 of the output: the `data` chunk tag. -/
theorem wavHeader_data_tag (ch r sw dl : Nat) (tail : List Nat) :
    ((wavHeader ch r sw dl ++ tail).drop 36).take 4 = [100, 97, 116, 97] := rfl

/-- Reading a two-byte field that lies inside the prefix of a
concatenation ignores the tail. -/
theorem readU16LE_append_left (A B : List Nat) (i : Nat) (h : i + 1 < A.length) :
    readU16LE (A ++ B) i = readU16LE A i := by
  unfold readU16LE
  rw [List.getD_append A B 0 i (by omega), List.getD_append A B 0 (i + 1) (by omega)]

/-- Reading a four-byte field that lies inside the prefix of a
concatenation ignores the tail. -/
theorem readU32LE_append_left (A B : List Nat) (i : Nat) (h : i + 3 < A.length) :
    readU32LE (A ++ B) i = readU32LE A i := by
  unfold readU32LE
  rw [List.getD_append A B 0 i (by omega), List.getD_append A B 0 (i + 1) (by omega),
    List.getD_append A B 0 (i + 2) (by omega), List.getD_append A B 0 (i + 3) (by omega)]

set_option maxHeartbeats 2000000 in
/-- The RIFF chunk size field (bytes 4-7) holds 36 plus the data
length. -/
theorem wavHeader_riff_size (ch r sw dl : Nat) (tail : List Nat) (h : 36 + dl < 4294967296) :
    readU32LE (wavHeader ch r sw dl ++ tail) 4 = 36 + dl := by
  rw [readU32LE_append_left _ _ _ (by rw [wavHeader_length]; omega)]
  have e : readU32LE (wavHeader ch r sw dl) 4 =
      (36 + dl) % 256 + 256 * ((36 + dl) / 256 % 256) + 65536 * ((36 + dl) / 65536 % 256) +
        16777216 * ((36 + dl) / 16777216 % 256) := rfl
  rw [e]
  omega

/-- The format tag field (bytes 20-21) holds 1, i.e. PCM. -/
theorem wavHeader_fmt_tag (ch r sw dl : Nat) (tail : List Nat) :
    readU16LE (wavHeader ch r sw dl ++ tail) 20 = 1 := by
  rw [readU16LE_append_left _ _ _ (by rw [wavHeader_length]; omega)]
  rfl

/-- The channel count field (bytes 22-23) holds the configured channel
count. -/
theorem wavHeader_channels (ch r sw dl : Nat) (tail : List Nat) (h : ch < 65536) :
    readU16LE (wavHeader ch r sw dl ++ tail) 22 = ch := by
  rw [readU16LE_append_left _ _ _ (by rw [wavHeader_length]; omega)]
  have e : readU16LE (wavHeader ch r sw dl) 22 = ch % 256 + 256 * (ch / 256 % 256) := rfl
  rw [e]
  omega

set_option maxHeartbeats 2000000 in
/-- The sample rate field (bytes 24-27) holds the configured rate. -/
theorem wavHeader_rate (ch r sw dl : Nat) (tail : List Nat) (h : r < 4294967296) :
    readU32LE (wavHeader ch r sw dl ++ tail) 24 = r := by
  rw [readU32LE_append_left _ _ _ (by rw [wavHeader_length]; omega)]
  have e : readU32LE (wavHeader ch r sw dl) 24 =
      r % 256 + 256 * (r / 256 % 256) + 65536 * (r / 65536 % 256) +
        16777216 * (r / 16777216 % 256) := rfl
  rw [e]
  omega

set_option maxHeartbeats 2000000 in
/-- The byte rate field (bytes 28-31) holds
channels × rate × sample width. -/
theorem wavHeader_byte_rate (ch r sw dl : Nat) (tail : List Nat)
    (h : ch * r * sw < 4294967296) :
    readU32LE (wavHeader ch r sw dl ++ tail) 28 = ch * r * sw := by
  rw [readU32LE_append_left _ _ _ (by rw [wavHeader_length]; omega)]
  have e : readU32LE (wavHeader ch r sw dl) 28 =
      (ch * r * sw) % 256 + 256 * ((ch * r * sw) / 256 % 256) +
        65536 * ((ch * r * sw) / 65536 % 256) +
        16777216 * ((ch * r * sw) / 16777216 % 256) := rfl
  rw [e]
  omega

/-- The block align field (bytes 32-33) holds channels × sample
width. -/
theorem wavHeader_block_align (ch r sw dl : Nat) (tail : List Nat) (h : ch * sw < 65536) :
    readU16LE (wavHeader ch r sw dl ++ tail) 32 = ch * sw := by
  rw [readU16LE_append_left _ _ _ (by rw [wavHeader_length]; omega)]
  have e : readU16LE (wavHeader ch r sw dl) 32 =
      (ch * sw) % 256 + 256 * ((ch * sw) / 256 % 256) := rfl
  rw [e]
  omega

/-- With the 16-bit sample width the converter always sets, the
bits-per-sample field (bytes 34-35) holds 16. -/
theorem wavHeader_bits (ch r dl : Nat) (tail : List Nat) :
    readU16LE (wavHeader ch r 2 dl ++ tail) 34 = 16 := by
  rw [readU16LE_append_left _ _ _ (by rw [wavHeader_length]; omega)]
  rfl

set_option maxHeartbeats 2000000 in
/-- The data chunk length field (bytes 40-43) holds the data length. -/
theorem wavHeader_datalen (ch r sw dl : Nat) (tail : List Nat) (h : dl < 4294967296) :
    readU32LE (wavHeader ch r sw dl ++ tail) 40 = dl := by
  rw [readU32LE_append_left _ _ _ (by rw [wavHeader_length]; omega)]
  have e : readU32LE (wavHeader ch r sw dl) 40 =
      dl % 256 + 256 * (dl / 256 % 256) + 65536 * (dl / 65536 % 256) +
        16777216 * (dl / 16777216 % 256) := rfl
  rw [e]
  omega

/-- When every decode call fails, no block is written. -/
theorem filterMap_repack_all_none :
    ∀ results : List (Option (List Nat)),
      (∀ r ∈ results, r = none) →
      results.filterMap (fun r => r.bind repack) = [] := by
  intro results
  induction results with
  | nil => intro _; rfl
  | cons r rest ih =>
    intro h
    have hr : r = none := h r (by simp)
    subst hr
    have hrest : ∀ r2 ∈ rest, r2 = none := fun r2 hm => h r2 (by simp [hm])
    simpa using ih hrest

/-- Claim C1: for every input byte sequence that is a valid
concatenation of zero or more well-formed frames (each frame a 2-byte
little-endian unsigned length L followed by exactly L payload bytes),
the demultiplexing loop in `convert_to_wav` enumerates exactly that many
frame payloads, in stream order, each byte-for-byte equal to the
corresponding payload of the input. -/
theorem claim_C1_demux_exact (ps : List (List Nat))
    (hlen : ∀ p ∈ ps, p.length < 65536) :
    demuxLoop (encodeFrames ps) 0 = ps := by
  have h := demuxLoop_encode_append ps [] hlen
  rw [List.append_nil] at h
  rw [h, demuxLoop_end [] 0 (by simp), List.append_nil]

/-- Witness for C1 at the spec's own example: the single frame
`02 00 AA BB` demultiplexes to the one payload `AA BB`. -/
theorem claim_C1_witness :
    encodeFrames [[170, 187]] = [2, 0, 170, 187] ∧
    demuxLoop (encodeFrames [[170, 187]]) 0 = [[170, 187]] :=
  ⟨rfl, claim_C1_demux_exact [[170, 187]] (by decide)⟩

/-- Claim C2: for every input truncated mid-header (0 or 1 bytes
remaining at the current offset) or mid-payload (declared frame length
exceeding the remaining bytes), the demultiplexing loop enumerates all
prior complete frames and then terminates normally, yielding no partial
frame. -/
theorem claim_C2_truncated (ps : List (List Nat)) (t : List Nat)
    (hlen : ∀ p ∈ ps, p.length < 65536)
    (htrunc : t.length ≤ 1 ∨ (2 ≤ t.length ∧ t.length < 2 + read_frame_length t 0)) :
    demuxLoop (encodeFrames ps ++ t) 0 = ps := by
  rw [demuxLoop_encode_append ps t hlen]
  have ht : demuxLoop t 0 = [] := by
    rcases htrunc with h | ⟨h2, h3⟩
    · match t, h with
      | [], _ => exact demuxLoop_end [] 0 (by simp)
      | [x], _ =>
        unfold demuxLoop
        rw [dif_pos (by simp), dif_pos (by simp)]
    · unfold demuxLoop
      rw [dif_pos (by omega), dif_neg (by omega), dif_pos (by omega)]
  rw [ht, List.append_nil]

/-- Witness for C2: one complete frame followed by the truncated
remainder `05 00 01` (declared length 5, only 1 byte left) yields
exactly the one complete payload. -/
theorem claim_C2_witness :
    encodeFrames [[170, 187]] ++ [5, 0, 1] = [2, 0, 170, 187, 5, 0, 1] ∧
    demuxLoop (encodeFrames [[170, 187]] ++ [5, 0, 1]) 0 = [[170, 187]] :=
  ⟨rfl, claim_C2_truncated [[170, 187]] [5, 0, 1] (by decide) (by right; refine ⟨by decide, by decide⟩)⟩

/-- Claim C9: every iteration of the frame-scanning loop that neither
breaks nor exits advances the offset by at least the 2 header bytes and
never past the end of the buffer, so the loop terminates on every finite
input. -/
theorem claim_C9_termination (data : List Nat) (offset off2 : Nat)
    (h : loopStep data offset = some off2) :
    offset + 2 ≤ off2 ∧ off2 ≤ data.length := by
  unfold loopStep at h
  split_ifs at h <;> simp at h <;> omega

/-- Witness for C9: on the one-frame input the first iteration advances
the offset from 0 to 4 = length of the buffer. -/
theorem claim_C9_witness :
    loopStep [2, 0, 170, 187] 0 = some 4 ∧
    (0 + 2 ≤ 4 ∧ 4 ≤ [2, 0, 170, 187].length) :=
  ⟨by decide, claim_C9_termination [2, 0, 170, 187] 0 4 (by decide)⟩

/-- Claim C7 fails as stated: with a converter configured for 8000 Hz
the decode call still requests 320 samples, not
8000 × 0.02 = 160 — the requested count is not derived from the
configured sample rate. -/
theorem claim_C7_counterexample :
    (convert_to_wav (OpusToWavConverter.mk 8000 1) spyDec [] [2, 0, 170, 187]).2 ≠
      [8000 * 20 / 1000] := by
  have hd : demuxLoop [2, 0, 170, 187] 0 = [[170, 187]] := by
    simp [demuxLoop, read_frame_length]
  have h2 : (convert_to_wav (OpusToWavConverter.mk 8000 1) spyDec [] [2, 0, 170, 187]).2 =
      runState spyDec [] (demuxLoop [2, 0, 170, 187] 0) :=
    convertLoop_snd spyDec [2, 0, 170, 187] 0 []
  rw [h2, hd]
  decide

/-- Claim C7 (amended): every decode call issued by `convert_to_wav`
requests the fixed constant 320 samples — the hard-coded 20 ms at the
default 16000 Hz — for every converter configuration and every input;
the count is an independent constant, not derived from the configured
sample rate. -/
theorem claim_C7_amended (c : OpusToWavConverter) (data : List Nat) (s0 : List Nat) :
    (convert_to_wav c spyDec s0 data).2 =
      s0 ++ List.replicate (demuxLoop data 0).length 320 := by
  show (convertLoop spyDec data 0 s0).2 = _
  rw [convertLoop_snd]
  generalize demuxLoop data 0 = frames
  induction frames generalizing s0 with
  | nil => simp [runState]
  | cons f rest ih =>
    simp only [runState, spyDec, List.length_cons, List.replicate_succ]
    rw [ih]
    simp

/-- Claim C10: a decoder result of odd byte length makes the repacking
step raise, so the frame is skipped exactly like a decode failure, and
every block the loop appends to the data section has even length. -/
theorem claim_C10_odd_pcm {σ : Type} (dec : DecodeFun σ) (s : σ) (data : List Nat) :
    (∀ pcm : List Nat, pcm.length % 2 = 1 → repack pcm = none) ∧
    (∀ b ∈ (convertLoop dec data 0 s).1, b.length % 2 = 0) := by
  constructor
  · exact fun pcm h => repack_odd pcm h
  · intro b hb
    rw [convertLoop_fst] at hb
    obtain ⟨r, hr, hbr⟩ := List.mem_filterMap.mp hb
    cases r with
    | none => simp at hbr
    | some pcm =>
      have hrep : repack pcm = some b := by simpa using hbr
      exact repack_even pcm b hrep

/-- Witness for C10: the odd block `[1, 2, 3]` is rejected by the
repacking step, and on a run whose decoder emits `[7, 0]` the written
block has even length. -/
theorem claim_C10_witness :
    repack [1, 2, 3] = none ∧ ([7, 0] : List Nat).length % 2 = 0 := by
  have hd : demuxLoop [2, 0, 170, 187] 0 = [[170, 187]] := by
    simp [demuxLoop, read_frame_length]
  have hmem : [7, 0] ∈ (convertLoop decConst [2, 0, 170, 187] 0 ()).1 := by
    rw [convertLoop_fst, hd]
    decide
  exact ⟨(claim_C10_odd_pcm decConst () [2, 0, 170, 187]).1 [1, 2, 3] (by decide),
    (claim_C10_odd_pcm decConst () [2, 0, 170, 187]).2 [7, 0] hmem⟩

/-- Claim C5: on every input for which no frame decodes successfully —
in particular the empty input of zero frames — `convert_to_wav` raises
nothing and returns the minimal valid container: a correct 44-byte
header matching the configuration and a zero-length data chunk. -/
theorem claim_C5_zero_decoded {σ : Type} (c : OpusToWavConverter) (dec : DecodeFun σ)
    (s : σ) (data : List Nat)
    (hnone : ∀ r ∈ decodeResults dec s (demuxLoop data 0), r = none)
    (hch : c.channels < 32768)
    (hrate : c.sample_rate < 4294967296) :
    (convert_to_wav c dec s data).1 = wavHeader c.channels c.sample_rate 2 0 ∧
    (convert_to_wav c dec s data).1.length = 44 ∧
    readU32LE (convert_to_wav c dec s data).1 40 = 0 ∧
    readU16LE (convert_to_wav c dec s data).1 20 = 1 ∧
    readU16LE (convert_to_wav c dec s data).1 22 = c.channels ∧
    readU32LE (convert_to_wav c dec s data).1 24 = c.sample_rate ∧
    readU16LE (convert_to_wav c dec s data).1 34 = 16 := by
  have hblocks : (convertLoop dec data 0 s).1 = [] := by
    rw [convertLoop_fst]
    exact filterMap_repack_all_none _ hnone
  have hout : (convert_to_wav c dec s data).1 =
      wavHeader c.channels c.sample_rate 2 ((convertLoop dec data 0 s).1.flatten.length) ++
        (convertLoop dec data 0 s).1.flatten := rfl
  rw [hout, hblocks]
  simp only [List.flatten_nil, List.length_nil]
  refine ⟨by simp, ?_, ?_, ?_, ?_, ?_, ?_⟩
  · simp [wavHeader_length]
  · exact wavHeader_datalen _ _ _ _ _ (by omega)
  · exact wavHeader_fmt_tag _ _ _ _ _
  · exact wavHeader_channels _ _ _ _ _ (by omega)
  · exact wavHeader_rate _ _ _ _ _ hrate
  · exact wavHeader_bits _ _ _ _

/-- Witness for C5: the empty input with the default configuration
yields exactly the silent 44-byte container. -/
theorem claim_C5_witness :
    (convert_to_wav defaultConverter decNone () []).1 = wavHeader 1 16000 2 0 ∧
    (convert_to_wav defaultConverter decNone () []).1.length = 44 ∧
    readU32LE (convert_to_wav defaultConverter decNone () []).1 40 = 0 ∧
    readU16LE (convert_to_wav defaultConverter decNone () []).1 20 = 1 ∧
    readU16LE (convert_to_wav defaultConverter decNone () []).1 22 = 1 ∧
    readU32LE (convert_to_wav defaultConverter decNone () []).1 24 = 16000 ∧
    readU16LE (convert_to_wav defaultConverter decNone () []).1 34 = 16 := by
  have hnone : ∀ r ∈ decodeResults decNone () (demuxLoop [] 0), r = none := by
    rw [demuxLoop_end [] 0 (by simp)]
    intro r hr
    simp [decodeResults] at hr
  exact claim_C5_zero_decoded defaultConverter decNone () [] hnone (by decide) (by decide)

/-- Claim C6: the data section of the returned container is byte-for-
byte the concatenation, in order, of the PCM blocks the decoder emitted
for the successfully decoded frames, so extracting the PCM data back out
of the container reproduces exactly the samples the decoder produced. -/
theorem claim_C6_roundtrip {σ : Type} (c : OpusToWavConverter) (dec : DecodeFun σ)
    (s : σ) (data : List Nat)
    (hvalid : ∀ r ∈ decodeResults dec s (demuxLoop data 0),
      ∀ pcm, r = some pcm → pcm.length % 2 = 0 ∧ ∀ b ∈ pcm, b < 256) :
    (convert_to_wav c dec s data).1.drop 44 =
      ((decodeResults dec s (demuxLoop data 0)).filterMap id).flatten := by
  have hout : (convert_to_wav c dec s data).1 =
      wavHeader c.channels c.sample_rate 2 ((convertLoop dec data 0 s).1.flatten.length) ++
        (convertLoop dec data 0 s).1.flatten := rfl
  have h44 : (44 : Nat) = (wavHeader c.channels c.sample_rate 2
      ((convertLoop dec data 0 s).1.flatten.length)).length :=
    (wavHeader_length _ _ _ _).symm
  rw [hout, h44, List.drop_left]
  rw [convertLoop_fst,
    filterMap_repack_all_id _
      (fun r hr pcm hpcm => repack_id pcm (hvalid r hr pcm hpcm).1 (hvalid r hr pcm hpcm).2)]

/-- Witness for C6: on the one-frame input with the stub decoder the
data section is exactly the emitted block `[7, 0]`. -/
theorem claim_C6_witness :
    (convert_to_wav defaultConverter decConst () [2, 0, 170, 187]).1.drop 44 =
      ((decodeResults decConst () (demuxLoop [2, 0, 170, 187] 0)).filterMap id).flatten := by
  refine claim_C6_roundtrip defaultConverter decConst () [2, 0, 170, 187] ?_
  have hd : demuxLoop [2, 0, 170, 187] 0 = [[170, 187]] := by
    simp [demuxLoop, read_frame_length]
  rw [hd]
  intro r hr pcm hpcm
  simp [decodeResults, decConst] at hr
  rw [hr] at hpcm
  have : pcm = [7, 0] := by simpa using hpcm.symm
  subst this
  exact ⟨by decide, by decide⟩

/-- Claim C3: when every frame of the stream decodes successfully to a
PCM block of nominal_samples samples, the returned container has a data
chunk of length N × nominal_samples × 2 × channels and RIFF/fmt header
fields (PCM tag, channel count, sample rate, 16-bit width, block align,
byte rate) exactly matching the configuration. -/
theorem claim_C3_all_success {σ : Type} (c : OpusToWavConverter) (dec : DecodeFun σ)
    (s : σ) (data : List Nat) (nominalSamples : Nat)
    (hres : ∀ r ∈ decodeResults dec s (demuxLoop data 0),
      ∃ pcm, r = some pcm ∧ pcm.length = nominalSamples * 2 * c.channels ∧ ∀ b ∈ pcm, b < 256)
    (hch : c.channels < 32768)
    (hrate : c.sample_rate < 4294967296)
    (hbyte : c.channels * c.sample_rate * 2 < 4294967296)
    (hdl : (demuxLoop data 0).length * (nominalSamples * 2 * c.channels) < 4294967296) :
    (convert_to_wav c dec s data).1.length =
      44 + (demuxLoop data 0).length * (nominalSamples * 2 * c.channels) ∧
    readU16LE (convert_to_wav c dec s data).1 20 = 1 ∧
    readU16LE (convert_to_wav c dec s data).1 22 = c.channels ∧
    readU32LE (convert_to_wav c dec s data).1 24 = c.sample_rate ∧
    readU32LE (convert_to_wav c dec s data).1 28 = c.channels * c.sample_rate * 2 ∧
    readU16LE (convert_to_wav c dec s data).1 32 = c.channels * 2 ∧
    readU16LE (convert_to_wav c dec s data).1 34 = 16 ∧
    readU32LE (convert_to_wav c dec s data).1 40 =
      (demuxLoop data 0).length * (nominalSamples * 2 * c.channels) := by
  set m := nominalSamples * 2 * c.channels with hm
  have hmeven : m % 2 = 0 := by
    have h2 : m = 2 * (nominalSamples * c.channels) := by rw [hm]; ring
    omega
  have hres2 : ∀ r ∈ decodeResults dec s (demuxLoop data 0),
      ∃ pcm, r = some pcm ∧ repack pcm = some pcm := by
    intro r hr
    obtain ⟨pcm, hpcm, hlen, hbytes⟩ := hres r hr
    exact ⟨pcm, hpcm, repack_id pcm (by omega) hbytes⟩
  have hblocks : (convertLoop dec data 0 s).1 =
      (decodeResults dec s (demuxLoop data 0)).filterMap (fun r => r.bind repack) :=
    convertLoop_fst dec data 0 s
  have hbl : (convertLoop dec data 0 s).1.length = (demuxLoop data 0).length := by
    rw [hblocks, filterMap_repack_all_some_length _ hres2, decodeResults_length]
  have hbm : ∀ b ∈ (convertLoop dec data 0 s).1, b.length = m := by
    intro b hb
    rw [hblocks] at hb
    obtain ⟨r, hr, hbr⟩ := List.mem_filterMap.mp hb
    obtain ⟨pcm, hpcm, hlen, hbytes⟩ := hres r hr
    subst hpcm
    have hrep : repack pcm = some b := by simpa using hbr
    have hid : repack pcm = some pcm := repack_id pcm (by omega) hbytes
    rw [hid] at hrep
    have hpb : pcm = b := by simpa using hrep
    subst hpb
    exact hlen
  have hflat : (convertLoop dec data 0 s).1.flatten.length = (demuxLoop data 0).length * m := by
    rw [flatten_length_const m _ hbm, hbl]
  have hout : (convert_to_wav c dec s data).1 =
      wavHeader c.channels c.sample_rate 2 ((convertLoop dec data 0 s).1.flatten.length) ++
        (convertLoop dec data 0 s).1.flatten := rfl
  rw [hout]
  refine ⟨?_, ?_, ?_, ?_, ?_, ?_, ?_, ?_⟩
  · simp [List.length_append, wavHeader_length, hflat]
  · exact wavHeader_fmt_tag _ _ _ _ _
  · exact wavHeader_channels _ _ _ _ _ (by omega)
  · exact wavHeader_rate _ _ _ _ _ hrate
  · exact wavHeader_byte_rate _ _ _ _ _ (by omega)
  · exact wavHeader_block_align _ _ _ _ _ (by omega)
  · exact wavHeader_bits _ _ _ _
  · rw [wavHeader_datalen _ _ _ _ _ (by rw [hflat]; omega)]
    exact hflat

/-- Witness for C3: one frame, a stub decoder emitting the one-sample
block `[7, 0]` (nominal_samples = 1, mono): 46-byte file, data chunk of
2 bytes, default header fields. -/
theorem claim_C3_witness :
    (convert_to_wav defaultConverter decConst () [2, 0, 170, 187]).1.length = 46 ∧
    readU16LE (convert_to_wav defaultConverter decConst () [2, 0, 170, 187]).1 20 = 1 ∧
    readU16LE (convert_to_wav defaultConverter decConst () [2, 0, 170, 187]).1 22 = 1 ∧
    readU32LE (convert_to_wav defaultConverter decConst () [2, 0, 170, 187]).1 24 = 16000 ∧
    readU32LE (convert_to_wav defaultConverter decConst () [2, 0, 170, 187]).1 28 = 32000 ∧
    readU16LE (convert_to_wav defaultConverter decConst () [2, 0, 170, 187]).1 32 = 2 ∧
    readU16LE (convert_to_wav defaultConverter decConst () [2, 0, 170, 187]).1 34 = 16 ∧
    readU32LE (convert_to_wav defaultConverter decConst () [2, 0, 170, 187]).1 40 = 2 := by
  have hd : demuxLoop [2, 0, 170, 187] 0 = [[170, 187]] := by
    simp [demuxLoop, read_frame_length]
  have hres : ∀ r ∈ decodeResults decConst () (demuxLoop [2, 0, 170, 187] 0),
      ∃ pcm, r = some pcm ∧ pcm.length = 1 * 2 * defaultConverter.channels ∧
        ∀ b ∈ pcm, b < 256 := by
    rw [hd]
    intro r hr
    have hr7 : r = some [7, 0] := by simpa [decodeResults, decConst] using hr
    exact ⟨[7, 0], hr7, by decide, by decide⟩
  have h := claim_C3_all_success defaultConverter decConst () [2, 0, 170, 187] 1 hres
    (by decide) (by decide) (by decide) (by rw [hd]; decide)
  rw [hd] at h
  obtain ⟨h1, h2, h3, h4, h5, h6, h7, h8⟩ := h
  exact ⟨by simpa using h1, h2, h3, h4, by simpa using h5, by simpa using h6, h7,
    by simpa using h8⟩

/-- Claim C4: when exactly one frame k (0 < k < N) fails to decode and
all others succeed, the conversion does not abort: the container holds
exactly N − 1 blocks, the failing frame contributes no samples, and the
frames after k are still processed. -/
theorem claim_C4_one_failure {σ : Type} (c : OpusToWavConverter) (dec : DecodeFun σ)
    (s : σ) (data : List Nat) (k : Nat)
    (hk0 : 0 < k)
    (hkN : k < (demuxLoop data 0).length)
    (hfail : (decodeResults dec s (demuxLoop data 0))[k]? = some none)
    (hok : ∀ i, i < (demuxLoop data 0).length → i ≠ k →
      ∃ pcm, (decodeResults dec s (demuxLoop data 0))[i]? = some (some pcm) ∧
        pcm.length % 2 = 0 ∧ ∀ b ∈ pcm, b < 256) :
    (convert_to_wav c dec s data).1 =
      wavHeader c.channels c.sample_rate 2 ((convertLoop dec data 0 s).1.flatten.length) ++
        (convertLoop dec data 0 s).1.flatten ∧
    (convertLoop dec data 0 s).1.length = (demuxLoop data 0).length - 1 := by
  have hlen := decodeResults_length dec (demuxLoop data 0) s
  constructor
  · rfl
  · have hok2 : ∀ i, i < (decodeResults dec s (demuxLoop data 0)).length → i ≠ k →
        ∃ pcm, (decodeResults dec s (demuxLoop data 0))[i]? = some (some pcm) ∧
          repack pcm = some pcm := by
      intro i hi hik
      obtain ⟨pcm, hp, he, hb⟩ := hok i (by omega) hik
      exact ⟨pcm, hp, repack_id pcm he hb⟩
    rw [convertLoop_fst, filterMap_one_none_length _ k (by omega) hfail hok2, hlen]

/-- Witness for C4: three frames where the middle one fails to decode;
the container keeps exactly the 2 = 3 − 1 blocks of the first and third
frame. -/
theorem claim_C4_witness :
    (convert_to_wav defaultConverter decSel () [1, 0, 5, 1, 0, 9, 1, 0, 5]).1 =
      wavHeader 1 16000 2
        ((convertLoop decSel [1, 0, 5, 1, 0, 9, 1, 0, 5] 0 ()).1.flatten.length) ++
        (convertLoop decSel [1, 0, 5, 1, 0, 9, 1, 0, 5] 0 ()).1.flatten ∧
    (convertLoop decSel [1, 0, 5, 1, 0, 9, 1, 0, 5] 0 ()).1.length = 2 := by
  have hd : demuxLoop [1, 0, 5, 1, 0, 9, 1, 0, 5] 0 = [[5], [9], [5]] := by
    simp [demuxLoop, read_frame_length]
  have hok : ∀ i, i < (demuxLoop [1, 0, 5, 1, 0, 9, 1, 0, 5] 0).length → i ≠ 1 →
      ∃ pcm, (decodeResults decSel () (demuxLoop [1, 0, 5, 1, 0, 9, 1, 0, 5] 0))[i]? =
        some (some pcm) ∧ pcm.length % 2 = 0 ∧ ∀ b ∈ pcm, b < 256 := by
    rw [hd]
    intro i hi hik
    have hi3 : i < 3 := by simpa using hi
    interval_cases i
    · exact ⟨[7, 0], by decide, by decide, by decide⟩
    · exact absurd rfl hik
    · exact ⟨[7, 0], by decide, by decide, by decide⟩
  have h := claim_C4_one_failure defaultConverter decSel () [1, 0, 5, 1, 0, 9, 1, 0, 5] 1
    (by decide) (by rw [hd]; decide) (by rw [hd]; decide) hok
  rw [hd] at h
  exact ⟨h.1, by simpa using h.2⟩
